import Mathlib

/-!
Verification development for the UNCALLED real-time read mapper
(`src/src/mapper.hpp`).  The repository ships only the header: every
class, field and method of the streaming search engine is declared there
but no function body is present.  Following the header's data model
(names, field layout, integer widths), the behaviour of each operation is
modelled from the design specification and each claimed property is
settled against that model.  Machine integers are modelled as `Nat` with
explicit `% 2 ^ w` where width matters; the floating-point probabilities
are modelled as `ℚ`.
-/

namespace Uncalled

/-- `Range`: a contiguous interval of the compressed index's coordinate
space (declared in the external `bwa_fmi.hpp`).  Modelled from the spec:
a half-open interval, *empty* iff low ≥ high. -/
structure Range where
  start_ : Nat
  end_ : Nat
deriving DecidableEq

/-- Empty iff low ≥ high (spec §3). -/
def Range.is_empty (r : Range) : Bool := r.end_ ≤ r.start_

/-- Number of index positions the range covers (half-open). -/
def Range.size (r : Range) : Nat := r.end_ - r.start_

/-- `r` is a subinterval of `s`. -/
def Range.subset_of (r s : Range) : Prop := s.start_ ≤ r.start_ ∧ r.end_ ≤ s.end_

instance (r s : Range) : Decidable (r.subset_of s) := by
  unfold Range.subset_of; infer_instance

/-- Intersection of two intervals (empty when they are disjoint). -/
def Range.intersect (r s : Range) : Range :=
  ⟨max r.start_ s.start_, min r.end_ s.end_⟩

/-- `Mapper::EventType` (mapper.hpp line 179): the two step types of the
bit-packed path history. -/
inductive EventType
  | MATCH
  | STAY
deriving DecidableEq

/-- Numeric value of a step type as stored in the packed history word
(`MATCH` first in the enum, hence 0). -/
def EventType.toNat : EventType → Nat
  | .MATCH => 0
  | .STAY => 1

/-- `Mapper::TYPE_BITS` (mapper.hpp line 180): bits of history stored per
step. -/
def TYPE_BITS : Nat := 1

/-- Bit width of `PathBuffer::event_types_`, a `u32` (mapper.hpp line 220). -/
def EVENT_TYPES_BITS : Nat := 32

/-- Number of steps the packed history word can record. -/
def HISTORY_CAPACITY : Nat := EVENT_TYPES_BITS / TYPE_BITS

/-- Append one step to the bit-packed history word.  Modelled from the
spec (§3 `step_history`, §9): a fixed-width 32-bit unsigned word holding
one `TYPE_BITS`-bit value per step, most recent step in the low bits. -/
def push_type (h : Nat) (t : EventType) : Nat :=
  (h * 2 ^ TYPE_BITS + t.toNat) % 2 ^ EVENT_TYPES_BITS

/-- The packed history word a sequence of steps would produce with
unbounded width: `push_type` without the 32-bit truncation, used to
state what the truncation forgets. -/
def pack_steps (h : Nat) : List EventType → Nat
  | [] => h
  | t :: ts => pack_steps (h * 2 ^ TYPE_BITS + t.toNat) ts

/-- `MapperParams` (mapper.hpp lines 57-109): immutable search
configuration shared by all channels.  The external index/model handles
(`fmi_`, `model_`) are modelled separately; the event-detector fields of
the external Signal Conditioner are omitted.  Modelled from the spec:
`stay_prob_` stands for the emission model's stay probability and
`n_kmers_` for the model's symbol-group count, both owned by the external
`model_` in the code; `seed_tol_` is the Seed Tracker's diagonal
tolerance (§4.4). -/
structure MapperParams where
  seed_len_ : Nat
  min_rep_len_ : Nat
  max_rep_copy_ : Nat
  max_paths_ : Nat
  max_consec_stay_ : Nat
  min_aln_len_ : Nat
  max_events_proc_ : Nat
  evt_buffer_len_ : Nat
  max_stay_frac_ : ℚ
  min_seed_prob_ : ℚ
  min_mean_conf_ : ℚ
  min_top_conf_ : ℚ
  evpr_lengths_ : List Nat
  evpr_threshes_ : List ℚ
  kmer_fmranges_ : List Range
  n_kmers_ : Nat
  stay_prob_ : ℚ
  seed_tol_ : Nat
deriving DecidableEq

/-- `MapperParams::get_prob_thresh` (mapper.hpp line 83).  Modelled from
the spec (§4.1): nearest-rank lookup of the probability threshold keyed
by index-range size over the ordered `(evpr_lengths_, evpr_threshes_)`
pairs; the baseline `min_seed_prob_` when no pair applies. -/
def MapperParams.get_prob_thresh (ps : MapperParams) (fm_length : Nat) : ℚ :=
  (ps.evpr_lengths_.zip ps.evpr_threshes_).foldl
    (fun acc lt => if lt.1 ≤ fm_length then lt.2 else acc) ps.min_seed_prob_

/-- `MapperParams::get_source_prob` (mapper.hpp line 84).  Modelled from
the spec (§4.1): the fixed baseline probability of freshly spawned
paths. -/
def MapperParams.get_source_prob (ps : MapperParams) : ℚ := ps.min_seed_prob_

/-- `Mapper::PathBuffer::MAX_PATH_LEN` (mapper.hpp line 209), a static
`u8` assigned outside the header.  Modelled from the spec: a path's
`length` is "bounded by a fixed maximum (paths exceeding the maximum are
forcibly sealed as seeds ...)" (§3), i.e. the configured seed length at
which a path becomes a seed; stored in a `u8`. -/
def MAX_PATH_LEN (ps : MapperParams) : Nat := ps.seed_len_ % 2 ^ 8

/-- `Mapper::PathBuffer` (mapper.hpp lines 182-224): one candidate
partial match.  Field for field after the header: `fm_range_`,
`length_`, `consec_stays_`, `kmer_`, `seed_prob_`, `event_types_`.  The
C array `prob_sums_` of sliding window sums is modelled as the list
`probs_` of the most recent per-step probabilities (newest first,
truncated to the window), from which every window sum is read off;
`spawn_id_` makes the spec's "earlier spawn time" pruning tie-break
(§4.3 step 5) explicit; `valid_` realises `is_valid`/`invalidate`
(mapper.hpp lines 197-198). -/
structure PathBuffer where
  fm_range_ : Range
  length_ : Nat
  consec_stays_ : Nat
  kmer_ : Nat
  seed_prob_ : ℚ
  probs_ : List ℚ
  event_types_ : Nat
  spawn_id_ : Nat
  valid_ : Bool
deriving DecidableEq

/-- `PathBuffer::is_valid` (mapper.hpp line 198). -/
def PathBuffer.is_valid (p : PathBuffer) : Bool := p.valid_

/-- `PathBuffer::invalidate` (mapper.hpp line 197). -/
def PathBuffer.invalidate (p : PathBuffer) : PathBuffer := { p with valid_ := false }

/-- `PathBuffer::type_head` (mapper.hpp line 202): type of the most
recent step, the low `TYPE_BITS` bits of the packed word. -/
def PathBuffer.type_head (p : PathBuffer) : Nat := p.event_types_ % 2 ^ TYPE_BITS

/-- `PathBuffer::type_tail` (mapper.hpp line 203): type of the oldest
recorded step, at most `HISTORY_CAPACITY` steps back. -/
def PathBuffer.type_tail (p : PathBuffer) : Nat :=
  p.event_types_ / 2 ^ (TYPE_BITS * (min p.length_ HISTORY_CAPACITY - 1)) % 2 ^ TYPE_BITS

/-- Length of the trailing run of `MATCH` bits of a packed history word,
scanning at most `fuel` recorded steps. -/
def match_len_aux (h : Nat) : Nat → Nat
  | 0 => 0
  | fuel + 1 => if h % 2 ^ TYPE_BITS = EventType.MATCH.toNat
      then match_len_aux (h / 2 ^ TYPE_BITS) fuel + 1 else 0

/-- `PathBuffer::match_len` (mapper.hpp line 204): length of the trailing
exact-match run, read from the recorded history. -/
def PathBuffer.match_len (p : PathBuffer) : Nat :=
  match_len_aux p.event_types_ (min p.length_ HISTORY_CAPACITY)

/-- `PathBuffer::make_source` (mapper.hpp lines 187-189).  Modelled from
the spec (§4.2): a fresh path with `length = 1`, empty repeat count and
the baseline probability; valid while its precomputed range is
non-empty. -/
def PathBuffer.make_source (range : Range) (kmer : Nat) (prob : ℚ) (sid : Nat) :
    PathBuffer :=
  { fm_range_ := range
    length_ := 1
    consec_stays_ := 0
    kmer_ := kmer
    seed_prob_ := prob
    probs_ := [prob]
    event_types_ := EventType.MATCH.toNat
    spawn_id_ := sid
    valid_ := !range.is_empty }

/-- `PathBuffer::make_child` (mapper.hpp lines 191-195).  Modelled from
the spec (§4.2): copy the parent, increment the length, reset the repeat
count on `MATCH` and increment it on `STAY` (discarding immediately when
that exceeds the configured cap), append the step to the bit-packed
history, slide the probability window, and mark invalid whenever the
narrowed range is empty. -/
def PathBuffer.make_child (p : PathBuffer) (ps : MapperParams) (range : Range)
    (kmer : Nat) (prob : ℚ) (ty : EventType) : PathBuffer :=
  let consec : Nat := match ty with
    | .MATCH => 0
    | .STAY => p.consec_stays_ + 1
  let probs := (prob :: p.probs_).take ps.seed_len_
  { fm_range_ := range
    length_ := p.length_ + 1
    consec_stays_ := consec
    kmer_ := kmer
    seed_prob_ := probs.sum
    probs_ := probs
    event_types_ := push_type p.event_types_ ty
    spawn_id_ := p.spawn_id_
    valid_ := !range.is_empty && decide (consec ≤ ps.max_consec_stay_) }

/-- Mean per-step confidence over the long window (spec §4.2): the
window sum divided by the number of steps the window covers. -/
def PathBuffer.mean_conf (p : PathBuffer) (ps : MapperParams) : ℚ :=
  p.seed_prob_ / ((min p.length_ ps.seed_len_ : Nat) : ℚ)

/-- `PathBuffer::is_seed_valid` (mapper.hpp lines 199-200).  Modelled
from the spec (§4.2), keeping the short-circuit shape the C++ would
have; `has_children` tells whether competing paths exist at this step
and `top_conf` is the best competitor's confidence (read from the path
population in the code, passed in here). -/
def PathBuffer.is_seed_valid (p : PathBuffer) (ps : MapperParams)
    (has_children : Bool) (top_conf : ℚ) : Bool :=
  if p.match_len < ps.min_aln_len_ then false
  else if 1 < p.fm_range_.size ∧
      (p.length_ < ps.min_rep_len_ ∨ ps.max_rep_copy_ < p.fm_range_.size) then false
  else if p.mean_conf ps < ps.min_mean_conf_ then false
  else if has_children = true ∧ p.mean_conf ps < ps.min_top_conf_ * top_conf then false
  else true

/-- The seed-validity decision exactly as the spec words it (§4.2), for
comparison with the modelled `PathBuffer.is_seed_valid`. -/
def seed_valid_claim (p : PathBuffer) (ps : MapperParams)
    (has_children : Bool) (top_conf : ℚ) : Prop :=
  ps.min_aln_len_ ≤ p.match_len ∧
  (p.fm_range_.size ≤ 1 ∨
    (ps.min_rep_len_ ≤ p.length_ ∧ p.fm_range_.size ≤ ps.max_rep_copy_)) ∧
  ps.min_mean_conf_ ≤ p.mean_conf ps ∧
  (has_children = true → ps.min_top_conf_ * top_conf ≤ p.mean_conf ps)

/-- `BwaFMI` (external `bwa_fmi.hpp`): the compressed full-text index.
Modelled from the spec (§2, §6): only the Index Query Primitive's
contract matters to the core — per symbol-group a precomputed range, and
a pure backward-search step that narrows a range (possibly to empty). -/
structure BwaFMI where
  kmer_ranges : List Range
deriving DecidableEq

/-- The index range associated with one symbol-group. -/
def BwaFMI.kmer_range (fmi : BwaFMI) (k : Nat) : Range :=
  fmi.kmer_ranges.getD k ⟨0, 0⟩

/-- The Index Query Primitive `narrow(range, symbol_group)` (spec §6).
Modelled from the spec: pure and deterministic, returns the subinterval
of `r` consistent with the symbol-group, or an empty range ("Narrowing
is monotonic: a child range is always a subset of its parent's", §3). -/
def BwaFMI.narrow (fmi : BwaFMI) (r : Range) (k : Nat) : Range :=
  r.intersect (fmi.kmer_range k)

/-- Ranking key for `operator< (PathBuffer, PathBuffer)` (mapper.hpp
line 226).  Modelled from the spec (§4.3 step 5): top paths first by
cumulative probability, ties broken by greater length, then by earlier
spawn time. -/
def PathBuffer.rank (p : PathBuffer) : ℚ ×ₗ (ℤ ×ₗ ℤ) :=
  toLex (-p.seed_prob_, toLex (-(p.length_ : ℤ), (p.spawn_id_ : ℤ)))

/-- `p` outranks (or ties) `q` in the pruning order. -/
def better (p q : PathBuffer) : Prop := p.rank ≤ q.rank

instance : DecidableRel better := fun p q =>
  inferInstanceAs (Decidable (p.rank ≤ q.rank))

instance : IsTotal PathBuffer better := ⟨fun p q => le_total p.rank q.rank⟩

instance : IsTrans PathBuffer better := ⟨fun _ _ _ h1 h2 => le_trans h1 h2⟩

/-- Pruning step (5) of the Path Population Manager (spec §4.3): when
the next generation exceeds the maximum path budget, keep only the top
`max_paths` paths in the ranking order. -/
def prune_to_budget (max_paths : Nat) (l : List PathBuffer) : List PathBuffer :=
  if l.length ≤ max_paths then l
  else (l.insertionSort better).take max_paths

/-- Per-event extension of one surviving path (spec §4.3 step 2): a
MATCH child for every symbol-group whose probability clears the
size-dependent threshold, plus a STAY child reusing the parents range;
children discarded by `make_child` (empty range or repeat cap) are not
produced. -/
def extend_children (ps : MapperParams) (fmi : BwaFMI) (probs : Nat → ℚ)
    (p : PathBuffer) : List PathBuffer :=
  let mchildren := (List.range ps.n_kmers_).filterMap fun k =>
    if ps.get_prob_thresh p.fm_range_.size ≤ probs k then
      let c := p.make_child ps (fmi.narrow p.fm_range_ k) k (probs k) .MATCH
      if c.valid_ then some c else none
    else none
  let stay := p.make_child ps p.fm_range_ p.kmer_ ps.stay_prob_ .STAY
  if stay.valid_ then stay :: mchildren else mchildren

/-- Source spawning (spec §4.3 step 3): for every symbol-group whose
single-event probability clears the source threshold and whose
precomputed range is non-empty, while the live population is below the
path budget, spawn one source path (at most one per group per step);
`evt` seeds the unique spawn identifiers of this step. -/
def spawn_sources_go (ps : MapperParams) (evt : Nat) (probs : Nat → ℚ)
    (acc : List PathBuffer) : List Nat → List PathBuffer
  | [] => acc
  | k :: ks =>
    if acc.length < ps.max_paths_ ∧ ps.get_source_prob ≤ probs k ∧
        (ps.kmer_fmranges_.getD k ⟨0, 0⟩).is_empty = false then
      spawn_sources_go ps evt probs
        (acc ++ [PathBuffer.make_source (ps.kmer_fmranges_.getD k ⟨0, 0⟩) k
          (probs k) (evt * ps.n_kmers_ + k)]) ks
    else spawn_sources_go ps evt probs acc ks

/-- Source spawning over every symbol-group of this step. -/
def spawn_sources (ps : MapperParams) (evt : Nat) (probs : Nat → ℚ)
    (cur : List PathBuffer) : List PathBuffer :=
  spawn_sources_go ps evt probs cur (List.range ps.n_kmers_)

/-- One event of the Path Population Manager (spec §4.3): prune dead or
over-age previous-generation paths, extend each survivor, spawn
deduplicated sources under the budget, seal childless survivors that
pass `is_seed_valid`, and cap the next generation at the path budget.
Returns the next generation and the sealed seeds. -/
def pop_step (ps : MapperParams) (fmi : BwaFMI) (evt : Nat) (probs : Nat → ℚ)
    (prev : List PathBuffer) : List PathBuffer × List PathBuffer :=
  let survivors := prev.filter fun p => p.valid_ && decide (p.length_ < MAX_PATH_LEN ps)
  let children := survivors.flatMap (extend_children ps fmi probs)
  let top_conf := (survivors.map fun q => q.mean_conf ps).foldl max 0
  let competing : Bool := decide (1 < survivors.length)
  let seeds := survivors.filterMap fun p =>
    if (extend_children ps fmi probs p).isEmpty &&
        p.is_seed_valid ps competing top_conf
      then some p else none
  (prune_to_budget ps.max_paths_ (spawn_sources ps evt probs children), seeds)

/-- A Seed Group (`seed_tracker.hpp`, external to the header).  Modelled
from the spec (§4.4): a cluster of seeds on a consistent reference
diagonal, with its reference span, event span, support count and
cumulative probability. -/
structure SeedGroup where
  rf_st_ : Nat
  rf_en_ : Nat
  evt_st_ : Nat
  evt_en_ : Nat
  count_ : Nat
  prob_ : ℚ
deriving DecidableEq

/-- Whether a new seed at reference position `rf` and event `evt` lies
within tolerance of a group's most recent member on the same diagonal,
projected forward (spec §4.4). -/
def seed_compat (tol : Nat) (g : SeedGroup) (rf evt : Nat) : Bool :=
  decide (g.evt_en_ ≤ evt) && decide (g.rf_en_ ≤ rf) &&
  decide (rf - g.rf_en_ ≤ evt - g.evt_en_ + tol) &&
  decide (evt - g.evt_en_ ≤ rf - g.rf_en_ + tol)

/-- `SeedTracker::add_seed`.  Modelled from the spec (§4.4): append to
the first open group within tolerance, updating its spans, support
count and cumulative probability; otherwise open a new group. -/
def tracker_add (tol : Nat) (rf evt : Nat) (conf : ℚ) :
    List SeedGroup → List SeedGroup
  | [] => [⟨rf, rf, evt, evt, 1, conf⟩]
  | g :: gs =>
    if seed_compat tol g rf evt then
      { g with rf_en_ := rf, evt_en_ := evt, count_ := g.count_ + 1,
               prob_ := g.prob_ + conf } :: gs
    else g :: tracker_add tol rf evt conf gs

/-- A group is a candidate result (spec §4.4) once its accumulated read
span reaches the minimum alignment length and its mean confidence the
threshold. -/
def group_candidate (ps : MapperParams) (g : SeedGroup) : Bool :=
  decide (ps.min_aln_len_ ≤ g.evt_en_ + 1 - g.evt_st_) &&
  decide (ps.min_mean_conf_ ≤ g.prob_ / (g.count_ : ℚ))

/-- Among two candidate groups, the better by cumulative probability,
ties broken by longer read span (spec §4.4). -/
def group_better (g1 g2 : SeedGroup) : Bool :=
  decide (g2.prob_ < g1.prob_) ||
  (decide (g1.prob_ = g2.prob_) &&
    decide (g2.evt_en_ - g2.evt_st_ ≤ g1.evt_en_ - g1.evt_st_))

/-- The read's resolved location candidate: the best candidate group, if
any (spec §4.4). -/
def best_group (ps : MapperParams) (groups : List SeedGroup) : Option SeedGroup :=
  (groups.filter (group_candidate ps)).foldl
    (fun acc g =>
      match acc with
      | none => some g
      | some b => if group_better g b then some g else some b)
    none

/-- `ReadLoc` (mapper.hpp lines 111-144): the per-read result record.
Fields follow the header (the reference name is not tracked by the
numeric model and the float `time_` is omitted). -/
structure ReadLoc where
  rd_name_ : String
  rd_channel_ : Nat
  rd_number_ : Nat
  rd_st_ : Nat
  rd_en_ : Nat
  rd_len_ : Nat
  rf_st_ : Nat
  rf_en_ : Nat
  rf_len_ : Nat
  match_count_ : Nat
  fwd_ : Bool
deriving DecidableEq

/-- A fresh, unpopulated `ReadLoc` (the C++ constructors).  Modelled
from the spec (§3): "Created empty at read start". -/
def ReadLoc.mk_empty (name : String) (channel number : Nat) : ReadLoc :=
  ⟨name, channel, number, 0, 0, 0, 0, 0, 0, 0, true⟩

/-- `ReadLoc::is_valid` (mapper.hpp line 122).  Modelled from the spec:
valid iff the record was populated by a winning Seed Group (which always
carries at least one matching seed). -/
def ReadLoc.is_valid (l : ReadLoc) : Bool := decide (0 < l.match_count_)

/-- `ReadLoc::set_ref_loc` (mapper.hpp line 116).  Modelled from the
spec (§3): populate the record once from the winning group. -/
def ReadLoc.set_ref_loc (l : ReadLoc) (g : SeedGroup) : ReadLoc :=
  { l with rf_st_ := g.rf_st_, rf_en_ := g.rf_en_,
           rf_len_ := g.rf_en_ + 1 - g.rf_st_,
           rd_st_ := g.evt_st_, rd_en_ := g.evt_en_,
           match_count_ := g.count_ }

/-- `Mapper::State` (mapper.hpp line 151). -/
inductive State
  | INACTIVE
  | MAPPING
  | SUCCESS
  | FAILURE
deriving DecidableEq

/-- The Signal Conditioner's per-chunk event production (external
`event_detector`/`normalizer`).  Modelled from the spec (§6): a pure map
from the raw samples of one chunk to a finite ordered sequence of
normalized events; the spec constrains nothing further, so each sample
stands for one normalized event. -/
def detect_events (samples : List ℚ) : List ℚ := samples

/-- `Mapper` (mapper.hpp lines 148-257): the per-channel Stream
Orchestrator.  Fields follow the header: `state_`, `event_i_`,
`chunk_processed_`, `chunk_buffer_`, `prev_paths_`, the Seed Tracker
(`seed_tracker_`, as its open groups), `read_loc_`, `channel_`,
`read_num_`; `events_` is the queue of produced, not yet consumed
events. -/
structure Mapper where
  state_ : State
  event_i_ : Nat
  chunk_processed_ : Bool
  chunk_buffer_ : List ℚ
  events_ : List ℚ
  prev_paths_ : List PathBuffer
  seed_groups_ : List SeedGroup
  read_loc_ : ReadLoc
  channel_ : Nat
  read_num_ : Nat
deriving DecidableEq

/-- The `Mapper(params, channel)` constructor: an inactive channel. -/
def Mapper.create (channel : Nat) : Mapper :=
  { state_ := .INACTIVE
    event_i_ := 0
    chunk_processed_ := true
    chunk_buffer_ := []
    events_ := []
    prev_paths_ := []
    seed_groups_ := []
    read_loc_ := ReadLoc.mk_empty "" channel 0
    channel_ := channel
    read_num_ := 0 }

/-- `Mapper::new_read` (mapper.hpp line 158).  Modelled from the spec
(§4.5): reset the path generations, the seed tracker and the Read
Location identity and enter `MAPPING`. -/
def Mapper.new_read (m : Mapper) (name : String) (number : Nat) : Mapper :=
  { m with state_ := .MAPPING
           event_i_ := 0
           chunk_processed_ := true
           chunk_buffer_ := []
           events_ := []
           prev_paths_ := []
           seed_groups_ := []
           read_loc_ := ReadLoc.mk_empty name m.channel_ number
           read_num_ := number }

/-- `Mapper::swap_chunk` (mapper.hpp line 165).  Modelled from the spec
(§4.5 `accept_chunk`): rejected — returning `false` and changing
nothing — while the previous chunk has not finished producing events;
otherwise install the new chunk. -/
def Mapper.swap_chunk (m : Mapper) (chunk : List ℚ) : Bool × Mapper :=
  if m.chunk_processed_ then
    (true, { m with chunk_buffer_ := chunk, chunk_processed_ := false })
  else (false, m)

/-- `Mapper::is_chunk_processed` (mapper.hpp line 168). -/
def Mapper.is_chunk_processed (m : Mapper) : Bool := m.chunk_processed_

/-- `Mapper::process_chunk` (mapper.hpp line 166).  Modelled from the
spec (§4.5 `produce_events`): run the Signal Conditioner over the
accepted chunk, queueing its events and returning their number;
idempotent per chunk — the processed flag makes a second call a
no-op. -/
def Mapper.process_chunk (m : Mapper) : Nat × Mapper :=
  if m.chunk_processed_ then (0, m)
  else
    let evts := detect_events m.chunk_buffer_
    (evts.length, { m with events_ := m.events_ ++ evts, chunk_processed_ := true })

/-- One `step` of the read-level state machine (spec §4.5): feed one
event (its per-symbol-group probabilities) to the Path Population
Manager, forward sealed seeds to the Seed Tracker, then transition to
`SUCCESS` when a candidate result exists, to `FAILURE` when the event
budget is exhausted without one, else remain `MAPPING`. -/
def Mapper.step (ps : MapperParams) (fmi : BwaFMI) (m : Mapper)
    (probs : Nat → ℚ) : Mapper :=
  if m.state_ = State.MAPPING then
    let next := (pop_step ps fmi m.event_i_ probs m.prev_paths_).1
    let sealed := (pop_step ps fmi m.event_i_ probs m.prev_paths_).2
    let groups := sealed.foldl
      (fun gs p => tracker_add ps.seed_tol_ p.fm_range_.start_ m.event_i_
        (p.mean_conf ps) gs)
      m.seed_groups_
    let evt := m.event_i_ + 1
    let m1 := { m with prev_paths_ := next, seed_groups_ := groups, event_i_ := evt }
    match best_group ps groups with
    | some g =>
      { m1 with state_ := .SUCCESS, read_loc_ := m1.read_loc_.set_ref_loc g }
    | none =>
      if ps.max_events_proc_ ≤ evt then { m1 with state_ := .FAILURE } else m1
  else m

/-- A whole read driven event by event: `step` folded over the
per-event probability assignments. -/
def Mapper.run (ps : MapperParams) (fmi : BwaFMI) (m : Mapper)
    (pss : List (Nat → ℚ)) : Mapper :=
  pss.foldl (fun mm probs => mm.step ps fmi probs) m

/-- `Mapper::finished` (mapper.hpp line 173): true iff the state is
terminal. -/
def Mapper.finished (m : Mapper) : Bool :=
  decide (m.state_ = State.SUCCESS) || decide (m.state_ = State.FAILURE)

/-- `Mapper::get_loc` (mapper.hpp line 174). -/
def Mapper.get_loc (m : Mapper) : ReadLoc := m.read_loc_

/-- `Mapper::pop_loc` (mapper.hpp line 175).  Modelled from the spec
(§6): return and clear the resolved Read Location once a terminal state
is reached; before that, fail by returning an invalid marker. -/
def Mapper.pop_loc (m : Mapper) : ReadLoc × Mapper :=
  if m.finished then
    (m.read_loc_,
      { m with read_loc_ := ReadLoc.mk_empty m.read_loc_.rd_name_ m.channel_ m.read_num_ })
  else (ReadLoc.mk_empty m.read_loc_.rd_name_ m.channel_ m.read_num_, m)

/-! Concrete configuration, index and path fixtures, used to instantiate
the theorems below at explicit inputs. -/

/-- A small concrete configuration: seed length 4, event budget 1, no
symbol-groups (so no extensions fire), repeat cap 2. -/
def sample_params : MapperParams :=
  { seed_len_ := 4
    min_rep_len_ := 2
    max_rep_copy_ := 4
    max_paths_ := 8
    max_consec_stay_ := 2
    min_aln_len_ := 2
    max_events_proc_ := 1
    evt_buffer_len_ := 16
    max_stay_frac_ := 1/2
    min_seed_prob_ := 1/2
    min_mean_conf_ := 1/2
    min_top_conf_ := 1/2
    evpr_lengths_ := []
    evpr_threshes_ := []
    kmer_fmranges_ := [⟨0, 4⟩]
    n_kmers_ := 0
    stay_prob_ := 1/2
    seed_tol_ := 3 }

/-- The configuration above with a 64-step seed length: its
`MAX_PATH_LEN` does not fit the 32-step packed history. -/
def wide_params : MapperParams := { sample_params with seed_len_ := 64 }

/-- A concrete (empty) index handle. -/
def sample_fmi : BwaFMI := ⟨[]⟩

/-- A concrete valid one-step path over the range [0, 5). -/
def sample_path : PathBuffer :=
  { fm_range_ := ⟨0, 5⟩
    length_ := 1
    consec_stays_ := 0
    kmer_ := 0
    seed_prob_ := 1
    probs_ := [1]
    event_types_ := 0
    spawn_id_ := 0
    valid_ := true }

/-- A second concrete path, outranked by `sample_path` (lower cumulative
probability). -/
def sample_path_low : PathBuffer :=
  { sample_path with seed_prob_ := 0, probs_ := [0], spawn_id_ := 1 }

/-- The STAY child `extend_children` produces from `sample_path` under
`sample_params` (no symbol-groups, so it is the only child). -/
def sample_child : PathBuffer :=
  sample_path.make_child sample_params sample_path.fm_range_ sample_path.kmer_
    sample_params.stay_prob_ EventType.STAY

/-- A channel whose first chunk was accepted but not yet processed. -/
def sample_mapper_unprocessed : Mapper := ((Mapper.create 1).swap_chunk []).2

/-- A channel in the terminal `SUCCESS` state with a populated location. -/
def sample_mapper_success : Mapper :=
  { Mapper.create 1 with
    state_ := State.SUCCESS
    read_loc_ := (ReadLoc.mk_empty "r" 1 0).set_ref_loc ⟨10, 13, 0, 3, 4, 2⟩ }

/-! ## Helper lemmas -/

theorem Range.intersect_subset_left (r s : Range) : (r.intersect s).subset_of r := by
  unfold Range.intersect Range.subset_of
  exact ⟨Nat.le_max_left _ _, Nat.min_le_left _ _⟩

theorem Range.subset_of_refl (r : Range) : r.subset_of r :=
  ⟨le_refl _, le_refl _⟩

theorem make_child_fm_range (p : PathBuffer) (ps : MapperParams) (r : Range)
    (k : Nat) (pr : ℚ) (ty : EventType) :
    (p.make_child ps r k pr ty).fm_range_ = r := by
  cases ty <;> rfl

theorem make_child_valid_iff (p : PathBuffer) (ps : MapperParams) (r : Range)
    (k : Nat) (pr : ℚ) (ty : EventType) :
    (p.make_child ps r k pr ty).valid_ = true ↔
      (r.is_empty = false ∧
        (p.make_child ps r k pr ty).consec_stays_ ≤ ps.max_consec_stay_) := by
  cases ty <;>
    simp [PathBuffer.make_child, Bool.and_eq_true, Bool.not_eq_true',
      decide_eq_true_iff]

theorem mem_extend_children {ps : MapperParams} {fmi : BwaFMI} {probs : Nat → ℚ}
    {p c : PathBuffer} (h : c ∈ extend_children ps fmi probs p) :
    c.fm_range_.subset_of p.fm_range_ ∧ c.fm_range_.is_empty = false ∧
    c.consec_stays_ ≤ ps.max_consec_stay_ := by
  simp only [extend_children] at h
  have hof : ∀ (r : Range) (k : Nat) (pr : ℚ) (ty : EventType),
      c = p.make_child ps r k pr ty → c.valid_ = true →
      r.subset_of p.fm_range_ →
      c.fm_range_.subset_of p.fm_range_ ∧ c.fm_range_.is_empty = false ∧
      c.consec_stays_ ≤ ps.max_consec_stay_ := by
    intro r k pr ty hc hv hsub
    subst hc
    rcases (make_child_valid_iff p ps r k pr ty).mp hv with ⟨hne, hcap⟩
    refine ⟨?_, ?_, hcap⟩
    · rw [make_child_fm_range]; exact hsub
    · rw [make_child_fm_range]; exact hne
  have hmatch : ∀ c', c' ∈ (List.range ps.n_kmers_).filterMap (fun k =>
      if ps.get_prob_thresh p.fm_range_.size ≤ probs k then
        if (p.make_child ps (fmi.narrow p.fm_range_ k) k (probs k) .MATCH).valid_
          then some (p.make_child ps (fmi.narrow p.fm_range_ k) k (probs k) .MATCH)
          else none
      else none) →
      c' = c →
      c.fm_range_.subset_of p.fm_range_ ∧ c.fm_range_.is_empty = false ∧
      c.consec_stays_ ≤ ps.max_consec_stay_ := by
    intro c' hc' hcc
    rcases List.mem_filterMap.mp hc' with ⟨k, _, heq⟩
    split at heq
    · split at heq
      · next hv =>
        rcases Option.some.inj heq with rfl
        subst hcc
        exact hof _ k (probs k) .MATCH rfl hv (Range.intersect_subset_left _ _)
      · exact absurd heq (by simp)
    · exact absurd heq (by simp)
  split at h
  · next hv =>
    rcases List.mem_cons.mp h with hc | hc
    · exact hof p.fm_range_ p.kmer_ ps.stay_prob_ .STAY hc (hc ▸ hv)
        (Range.subset_of_refl _)
    · exact hmatch c hc rfl
  · exact hmatch c h rfl

theorem prune_to_budget_length (k : Nat) (l : List PathBuffer) :
    (prune_to_budget k l).length ≤ k := by
  unfold prune_to_budget
  split
  · next h => exact h
  · simp [List.length_take]

theorem mem_prune_to_budget {k : Nat} {l : List PathBuffer} {q : PathBuffer}
    (h : q ∈ prune_to_budget k l) : q ∈ l := by
  unfold prune_to_budget at h
  split at h
  · exact h
  · exact (List.perm_insertionSort better l).subset (List.take_subset _ _ h)

theorem mem_spawn_sources_go {ps : MapperParams} {evt : Nat} {probs : Nat → ℚ}
    {q : PathBuffer} :
    ∀ (ks : List Nat) (acc : List PathBuffer),
      q ∈ spawn_sources_go ps evt probs acc ks →
      q ∈ acc ∨ (q.consec_stays_ = 0 ∧ q.fm_range_.is_empty = false ∧
        q.length_ = 1) := by
  intro ks
  induction ks with
  | nil => intro acc h; exact Or.inl h
  | cons k ks ih =>
    intro acc h
    rw [spawn_sources_go] at h
    split at h
    · next hcond =>
      rcases ih _ h with hacc | hq
      · rcases List.mem_append.mp hacc with hacc | hsrc
        · exact Or.inl hacc
        · refine Or.inr ?_
          rcases List.mem_singleton.mp hsrc with rfl
          exact ⟨rfl, by
            simp only [PathBuffer.make_source, Bool.not_eq_true']
            exact hcond.2.2, rfl⟩
      · exact Or.inr hq
    · rcases ih _ h with hacc | hq
      · exact Or.inl hacc
      · exact Or.inr hq

theorem mem_pop_step_next {ps : MapperParams} {fmi : BwaFMI} {evt : Nat}
    {probs : Nat → ℚ} {prev : List PathBuffer} {q : PathBuffer}
    (h : q ∈ (pop_step ps fmi evt probs prev).1) :
    q.fm_range_.is_empty = false ∧ q.consec_stays_ ≤ ps.max_consec_stay_ := by
  simp only [pop_step] at h
  have h1 := mem_prune_to_budget h
  rcases mem_spawn_sources_go _ _ h1 with hch | hsrc
  · rcases List.mem_flatMap.mp hch with ⟨p, _, hc⟩
    rcases mem_extend_children hc with ⟨_, hne, hcap⟩
    exact ⟨hne, hcap⟩
  · exact ⟨hsrc.2.1, by omega⟩

/-! ## The claims -/

/-- C3: after the per-event pruning step of the Path Population Manager,
the live (next-generation) path population never exceeds the configured
maximum path budget `max_paths_`. -/
theorem next_generation_within_budget (ps : MapperParams) (fmi : BwaFMI)
    (evt : Nat) (probs : Nat → ℚ) (prev : List PathBuffer) :
    ((pop_step ps fmi evt probs prev).1).length ≤ ps.max_paths_ := by
  simp only [pop_step]
  exact prune_to_budget_length _ _

/-- C7: chunk processing is idempotent — a second `process_chunk` on the
same accepted chunk, without an intervening successful `swap_chunk`, is
a no-op guarded by the chunk-processed flag, so the chunk's events are
produced exactly once. -/
theorem process_chunk_idempotent :
    (∀ m : Mapper, (m.process_chunk.2).process_chunk = (0, m.process_chunk.2)) ∧
    (∀ m : Mapper, m.chunk_processed_ = false →
      m.process_chunk.1 = (detect_events m.chunk_buffer_).length ∧
      (m.process_chunk.2).events_ = m.events_ ++ detect_events m.chunk_buffer_) := by
  constructor
  · intro m
    cases hm : m.chunk_processed_ <;> simp [Mapper.process_chunk, hm]
  · intro m hm
    simp [Mapper.process_chunk, hm]

/-- C8: `swap_chunk` called while a previously accepted chunk is still
unprocessed returns `false` and leaves the Mapper — chunk buffer, event
count, search state — unchanged. -/
theorem swap_chunk_rejected_when_unprocessed (m : Mapper) (chunk : List ℚ)
    (h : m.chunk_processed_ = false) :
    m.swap_chunk chunk = (false, m) := by
  simp [Mapper.swap_chunk, h]

/-- Witness for C8: a channel holding an unprocessed chunk rejects the
next chunk and is left unchanged. -/
theorem swap_chunk_rejected_when_unprocessed_witness :
    sample_mapper_unprocessed.chunk_processed_ = false ∧
    sample_mapper_unprocessed.swap_chunk [] = (false, sample_mapper_unprocessed) :=
  ⟨rfl, swap_chunk_rejected_when_unprocessed sample_mapper_unprocessed [] rfl⟩

/-- C9: `pop_loc` returns and clears the resolved Read Location when the
Mapper is in a terminal state; called before a terminal state it fails,
returning a marker whose `is_valid` is `false`, and changes nothing. -/
theorem pop_loc_terminal_returns_and_clears :
    (∀ m : Mapper, m.finished = true →
      m.pop_loc = (m.read_loc_,
        { m with read_loc_ :=
            ReadLoc.mk_empty m.read_loc_.rd_name_ m.channel_ m.read_num_ })) ∧
    (∀ m : Mapper, m.finished = false →
      (m.pop_loc.1.is_valid = false ∧ m.pop_loc.2 = m)) := by
  constructor
  · intro m hm
    simp [Mapper.pop_loc, hm]
  · intro m hm
    simp [Mapper.pop_loc, hm, ReadLoc.is_valid, ReadLoc.mk_empty]

/-- C1: every child produced by a path extension has an index range that
is a subset of its parent's and non-empty (an empty-range child is
marked invalid inside `make_child` and dropped from the children), and
every path retained in the next generation has a non-empty range. -/
theorem child_range_subset_and_nonempty :
    (∀ (ps : MapperParams) (fmi : BwaFMI) (probs : Nat → ℚ) (p c : PathBuffer),
      c ∈ extend_children ps fmi probs p →
        c.fm_range_.subset_of p.fm_range_ ∧ c.fm_range_.is_empty = false) ∧
    (∀ (ps : MapperParams) (fmi : BwaFMI) (evt : Nat) (probs : Nat → ℚ)
        (prev : List PathBuffer) (q : PathBuffer),
      q ∈ (pop_step ps fmi evt probs prev).1 → q.fm_range_.is_empty = false) := by
  constructor
  · intro ps fmi probs p c h
    rcases mem_extend_children h with ⟨hsub, hne, _⟩
    exact ⟨hsub, hne⟩
  · intro ps fmi evt probs prev q h
    exact (mem_pop_step_next h).1

/-- C5: `make_child` resets the consecutive-stay counter on MATCH and
increments it on STAY, discarding (invalidating) the child immediately
when the increment exceeds the configured cap, so no retained path's
counter ever exceeds `max_consec_stay_`. -/
theorem consec_stays_within_cap :
    (∀ (p : PathBuffer) (ps : MapperParams) (r : Range) (k : Nat) (pr : ℚ),
      (p.make_child ps r k pr .MATCH).consec_stays_ = 0) ∧
    (∀ (p : PathBuffer) (ps : MapperParams) (r : Range) (k : Nat) (pr : ℚ),
      (p.make_child ps r k pr .STAY).consec_stays_ = p.consec_stays_ + 1 ∧
      (ps.max_consec_stay_ < p.consec_stays_ + 1 →
        (p.make_child ps r k pr .STAY).valid_ = false)) ∧
    (∀ (ps : MapperParams) (fmi : BwaFMI) (evt : Nat) (probs : Nat → ℚ)
        (prev : List PathBuffer) (q : PathBuffer),
      q ∈ (pop_step ps fmi evt probs prev).1 →
        q.consec_stays_ ≤ ps.max_consec_stay_) := by
  refine ⟨fun p ps r k pr => rfl, fun p ps r k pr => ⟨rfl, fun hgt => ?_⟩, ?_⟩
  · have := make_child_valid_iff p ps r k pr .STAY
    rcases hb : (p.make_child ps r k pr .STAY).valid_ with _ | _
    · rfl
    · rcases this.mp hb with ⟨_, hcap⟩
      have : (p.make_child ps r k pr .STAY).consec_stays_ = p.consec_stays_ + 1 := rfl
      omega
  · intro ps fmi evt probs prev q h
    exact (mem_pop_step_next h).2

/-- C6: the seed-validity decision returns true exactly when the four
conditions of the spec hold — trailing match run long enough, range
size within the repetitive-region allowance, mean confidence over the
long window at least the minimum, and (when competing paths exist) the
confidence within the top-confidence margin of the best competitor. -/
theorem is_seed_valid_iff_claim (p : PathBuffer) (ps : MapperParams)
    (hc : Bool) (tc : ℚ) :
    p.is_seed_valid ps hc tc = true ↔ seed_valid_claim p ps hc tc := by
  unfold PathBuffer.is_seed_valid seed_valid_claim
  split_ifs with h1 h2 h3 h4
  · simp only [false_iff]
    rintro ⟨ha, _, _, _⟩
    omega
  · simp only [false_iff]
    rintro ⟨_, hb, _, _⟩
    rcases hb with hb | hb <;> omega
  · simp only [false_iff]
    rintro ⟨_, _, hcnf, _⟩
    linarith
  · simp only [false_iff]
    rintro ⟨_, _, _, hd⟩
    exact absurd (hd h4.1) (not_le.mpr h4.2)
  · simp only [true_iff]
    refine ⟨by omega, by omega, not_lt.mp h3, fun hhc => ?_⟩
    exact not_lt.mp fun hm => h4 ⟨hhc, hm⟩

theorem pack_steps_congr : ∀ (ts : List EventType) (a b : Nat),
    a % 2 ^ EVENT_TYPES_BITS = b % 2 ^ EVENT_TYPES_BITS →
    pack_steps a ts % 2 ^ EVENT_TYPES_BITS =
      pack_steps b ts % 2 ^ EVENT_TYPES_BITS := by
  intro ts
  induction ts with
  | nil => intro a b h; exact h
  | cons t ts ih =>
    intro a b h
    rw [pack_steps, pack_steps]
    exact ih _ _ (Nat.ModEq.add_right _ (Nat.ModEq.mul_right _ h))

theorem foldl_push_eq_pack : ∀ (ts : List EventType) (h : Nat), ts ≠ [] →
    ts.foldl push_type h = pack_steps h ts % 2 ^ EVENT_TYPES_BITS := by
  intro ts
  induction ts with
  | nil => intro h hne; exact absurd rfl hne
  | cons t ts ih =>
    intro h0 _
    rw [List.foldl_cons, pack_steps]
    rcases ts with _ | ⟨t2, ts2⟩
    · simp [push_type, pack_steps]
    · rw [ih (push_type h0 t) (by simp)]
      exact pack_steps_congr _ _ _ (Nat.mod_mod_of_dvd _ dvd_rfl)

theorem pack_steps_split : ∀ (ts : List EventType) (h : Nat),
    pack_steps h ts = h * 2 ^ (TYPE_BITS * ts.length) + pack_steps 0 ts := by
  intro ts
  induction ts with
  | nil => intro h; simp [pack_steps]
  | cons t ts ih =>
    intro h
    rw [pack_steps, ih (h * 2 ^ TYPE_BITS + EventType.toNat t),
      show pack_steps 0 (t :: ts) = pack_steps (0 * 2 ^ TYPE_BITS + EventType.toNat t) ts from rfl,
      ih (0 * 2 ^ TYPE_BITS + EventType.toNat t),
      show TYPE_BITS * (t :: ts).length = TYPE_BITS * ts.length + TYPE_BITS by
        simp [List.length_cons]; ring,
      pow_add]
    ring

theorem match_len_aux_le : ∀ (fuel h : Nat), match_len_aux h fuel ≤ fuel := by
  intro fuel
  induction fuel with
  | zero => intro h; rw [match_len_aux]
  | succ f ih =>
    intro h
    rw [match_len_aux]
    split
    · exact Nat.succ_le_succ (ih _)
    · omega

/-- C10 (amended): the step history is bit-packed at `TYPE_BITS = 1` bit
per step into one 32-bit word, whose capacity is 32 steps: after any 32
recorded steps the word — hence `type_head`, `type_tail` and
`match_len`, which are functions of it — has forgotten everything
older, and `match_len` never reports more than 32; `MAX_PATH_LEN`
(assigned from the configured seed length) fits in this capacity
whenever that configuration is at most 32. -/
theorem packed_history_covers_32_steps :
    TYPE_BITS = 1 ∧ HISTORY_CAPACITY = 32 ∧
    (∀ (h1 h2 : Nat) (ts : List EventType), ts.length = HISTORY_CAPACITY →
      ts.foldl push_type h1 = ts.foldl push_type h2) ∧
    (∀ p : PathBuffer, p.match_len ≤ HISTORY_CAPACITY) ∧
    (∀ ps : MapperParams, ps.seed_len_ ≤ HISTORY_CAPACITY →
      MAX_PATH_LEN ps ≤ HISTORY_CAPACITY) := by
  refine ⟨rfl, rfl, ?_, ?_, ?_⟩
  · intro h1 h2 ts hlen
    have hne : ts ≠ [] := by
      intro hnil
      rw [hnil] at hlen
      simp [HISTORY_CAPACITY, EVENT_TYPES_BITS, TYPE_BITS] at hlen
    have key : ∀ h : Nat,
        pack_steps h ts % 2 ^ EVENT_TYPES_BITS =
          pack_steps 0 ts % 2 ^ EVENT_TYPES_BITS := by
      intro h
      rw [pack_steps_split ts h, hlen,
        show TYPE_BITS * HISTORY_CAPACITY = EVENT_TYPES_BITS from rfl,
        Nat.add_comm, Nat.mul_comm, Nat.add_mul_mod_self_left]
    rw [foldl_push_eq_pack ts h1 hne, foldl_push_eq_pack ts h2 hne, key h1, key h2]
  · intro p
    exact le_trans (match_len_aux_le _ _) (Nat.min_le_right _ _)
  · intro ps hle
    have h32 : HISTORY_CAPACITY = 32 := rfl
    unfold MAX_PATH_LEN
    rw [Nat.mod_eq_of_lt (by omega)]
    exact hle

/-- Counterexample for C10 as stated: with a configured seed length of
64, `MAX_PATH_LEN` does not fit in the 32-step capacity of the packed
history word. -/
theorem packed_history_maxlen_counterexample :
    ¬ MAX_PATH_LEN wide_params ≤ HISTORY_CAPACITY := by decide

theorem better_iff (a b : PathBuffer) : better a b ↔
    (b.seed_prob_ < a.seed_prob_ ∨ (a.seed_prob_ = b.seed_prob_ ∧
      (b.length_ < a.length_ ∨ (a.length_ = b.length_ ∧
        a.spawn_id_ ≤ b.spawn_id_)))) := by
  simp only [better, PathBuffer.rank, Prod.Lex.le_iff]
  constructor
  · rintro (hlt | ⟨heq, hrest⟩)
    · exact Or.inl (neg_lt_neg_iff.mp hlt)
    · refine Or.inr ⟨neg_inj.mp heq, ?_⟩
      rcases hrest with hl | ⟨hle, hs⟩
      · exact Or.inl (by exact_mod_cast neg_lt_neg_iff.mp hl)
      · exact Or.inr ⟨by exact_mod_cast neg_inj.mp hle, by exact_mod_cast hs⟩
  · rintro (hlt | ⟨heq, hrest⟩)
    · exact Or.inl (neg_lt_neg_iff.mpr hlt)
    · refine Or.inr ⟨neg_inj.mpr heq, ?_⟩
      rcases hrest with hl | ⟨hle, hs⟩
      · exact Or.inl (neg_lt_neg_iff.mpr (by exact_mod_cast hl))
      · exact Or.inr ⟨neg_inj.mpr (by exact_mod_cast hle), by exact_mod_cast hs⟩

/-- C4: when the next generation exceeds the path budget, exactly the
top-`max_paths` paths in the ranking — cumulative probability first,
ties broken by greater length, then by earlier spawn time, a total
(pre)order — are retained and the rest discarded: the retained list has
exactly `max_paths` elements, retained and discarded together are a
permutation of the input, every retained path outranks every discarded
one, and the ranking is total and transitive with the stated shape. -/
theorem prune_retains_exactly_top (k : Nat) (l : List PathBuffer)
    (h : k < l.length) :
    ∃ dropped : List PathBuffer,
      (prune_to_budget k l).length = k ∧
      (prune_to_budget k l ++ dropped).Perm l ∧
      (∀ p ∈ prune_to_budget k l, ∀ q ∈ dropped, better p q) ∧
      (∀ a b : PathBuffer, better a b ∨ better b a) ∧
      (∀ a b c : PathBuffer, better a b → better b c → better a c) ∧
      (∀ a b : PathBuffer, better a b ↔
        (b.seed_prob_ < a.seed_prob_ ∨ (a.seed_prob_ = b.seed_prob_ ∧
          (b.length_ < a.length_ ∨ (a.length_ = b.length_ ∧
            a.spawn_id_ ≤ b.spawn_id_))))) := by
  have hbranch : prune_to_budget k l = (l.insertionSort better).take k := by
    unfold prune_to_budget
    rw [if_neg (by omega)]
  refine ⟨(l.insertionSort better).drop k, ?_, ?_, ?_,
    fun a b => le_total a.rank b.rank, fun a b c h1 h2 => le_trans h1 h2,
    better_iff⟩
  · rw [hbranch, List.length_take, List.length_insertionSort]
    exact min_eq_left h.le
  · rw [hbranch, List.take_append_drop]
    exact List.perm_insertionSort better l
  · rw [hbranch]
    have hs2 : List.Pairwise better
        ((l.insertionSort better).take k ++ (l.insertionSort better).drop k) := by
      rw [List.take_append_drop]
      exact List.sorted_insertionSort better l
    exact (List.pairwise_append.mp hs2).2.2

/-- Witness for C4: pruning a two-path population to budget 1. -/
theorem prune_retains_exactly_top_witness :
    1 < [sample_path, sample_path_low].length ∧
    ∃ dropped : List PathBuffer,
      (prune_to_budget 1 [sample_path, sample_path_low]).length = 1 ∧
      (prune_to_budget 1 [sample_path, sample_path_low] ++ dropped).Perm
        [sample_path, sample_path_low] ∧
      (∀ p ∈ prune_to_budget 1 [sample_path, sample_path_low],
        ∀ q ∈ dropped, better p q) ∧
      (∀ a b : PathBuffer, better a b ∨ better b a) ∧
      (∀ a b c : PathBuffer, better a b → better b c → better a c) ∧
      (∀ a b : PathBuffer, better a b ↔
        (b.seed_prob_ < a.seed_prob_ ∨ (a.seed_prob_ = b.seed_prob_ ∧
          (b.length_ < a.length_ ∨ (a.length_ = b.length_ ∧
            a.spawn_id_ ≤ b.spawn_id_))))) :=
  ⟨by simp, prune_retains_exactly_top 1 [sample_path, sample_path_low] (by simp)⟩

theorem step_frozen (ps : MapperParams) (fmi : BwaFMI) (m : Mapper)
    (probs : Nat → ℚ) (h : m.state_ ≠ State.MAPPING) :
    m.step ps fmi probs = m := by
  unfold Mapper.step
  rw [if_neg h]

theorem run_cons (ps : MapperParams) (fmi : BwaFMI) (m : Mapper)
    (p : Nat → ℚ) (pss : List (Nat → ℚ)) :
    Mapper.run ps fmi m (p :: pss) = Mapper.run ps fmi (m.step ps fmi p) pss := rfl

theorem step_state_cases (ps : MapperParams) (fmi : BwaFMI) (m : Mapper)
    (probs : Nat → ℚ) (h : m.state_ = State.MAPPING) :
    (m.step ps fmi probs).state_ = State.SUCCESS ∨
    ((m.step ps fmi probs).state_ = State.FAILURE ∧
      ps.max_events_proc_ ≤ m.event_i_ + 1) ∨
    ((m.step ps fmi probs).state_ = State.MAPPING ∧
      (m.step ps fmi probs).event_i_ = m.event_i_ + 1 ∧
      m.event_i_ + 1 < ps.max_events_proc_) := by
  simp only [Mapper.step, if_pos h]
  split
  · exact Or.inl rfl
  · split
    · next hb => exact Or.inr (Or.inl ⟨rfl, hb⟩)
    · next hb => exact Or.inr (Or.inr ⟨h, rfl, by omega⟩)

theorem run_mapping_invariant (ps : MapperParams) (fmi : BwaFMI) :
    ∀ (pss : List (Nat → ℚ)) (m : Mapper),
      (Mapper.run ps fmi m pss).state_ = State.MAPPING →
      m.state_ = State.MAPPING ∧
      (Mapper.run ps fmi m pss).event_i_ = m.event_i_ + pss.length ∧
      (pss ≠ [] → (Mapper.run ps fmi m pss).event_i_ < ps.max_events_proc_) := by
  intro pss
  induction pss with
  | nil =>
    intro m h
    exact ⟨h, by simp [Mapper.run], fun hne => absurd rfl hne⟩
  | cons p pss ih =>
    intro m h
    rw [run_cons] at h
    by_cases hm : m.state_ = State.MAPPING
    · rcases ih (m.step ps fmi p) h with ⟨hsm, hev, hlt⟩
      rcases step_state_cases ps fmi m p hm with hS | ⟨hF, _⟩ | ⟨_, hev1, hbud⟩
      · simp [hS] at hsm
      · simp [hF] at hsm
      · refine ⟨hm, ?_, ?_⟩
        · rw [run_cons, hev, hev1, List.length_cons]
          omega
        · intro _
          rw [run_cons]
          rcases pss with _ | ⟨p2, pss2⟩
          · rw [show Mapper.run ps fmi (m.step ps fmi p) [] = m.step ps fmi p
                from rfl, hev1]
            exact hbud
          · exact hlt (by simp)
    · rw [step_frozen ps fmi m p hm] at h
      exact absurd (ih m h).1 hm

theorem step_keeps_active (ps : MapperParams) (fmi : BwaFMI) (m : Mapper)
    (probs : Nat → ℚ) (h : m.state_ ≠ State.INACTIVE) :
    (m.step ps fmi probs).state_ ≠ State.INACTIVE := by
  by_cases hm : m.state_ = State.MAPPING
  · rcases step_state_cases ps fmi m probs hm with hS | ⟨hF, _⟩ | ⟨hM, _, _⟩
    · rw [hS]; simp
    · rw [hF]; simp
    · rw [hM]; simp
  · rw [step_frozen ps fmi m probs hm]
    exact h

theorem run_keeps_active (ps : MapperParams) (fmi : BwaFMI) :
    ∀ (pss : List (Nat → ℚ)) (m : Mapper),
      m.state_ ≠ State.INACTIVE →
      (Mapper.run ps fmi m pss).state_ ≠ State.INACTIVE := by
  intro pss
  induction pss with
  | nil => intro m h; exact h
  | cons p pss ih =>
    intro m h
    rw [run_cons]
    exact ih _ (step_keeps_active ps fmi m p h)

/-- C2: a read driven through at least `max_events_proc_` events from
`new_read` ends in `SUCCESS` or `FAILURE` — the step loop never leaves a
read in `MAPPING` once the configured (positive) event budget is
exhausted. -/
theorem read_terminates_within_budget (ps : MapperParams) (fmi : BwaFMI)
    (m0 : Mapper) (name : String) (num : Nat) (pss : List (Nat → ℚ))
    (h1 : 1 ≤ ps.max_events_proc_) (h2 : ps.max_events_proc_ ≤ pss.length) :
    (Mapper.run ps fmi (m0.new_read name num) pss).state_ = State.SUCCESS ∨
    (Mapper.run ps fmi (m0.new_read name num) pss).state_ = State.FAILURE := by
  have hact : (Mapper.run ps fmi (m0.new_read name num) pss).state_ ≠
      State.INACTIVE := by
    refine run_keeps_active ps fmi pss _ ?_
    rw [show (m0.new_read name num).state_ = State.MAPPING from rfl]
    simp
  have hnm : (Mapper.run ps fmi (m0.new_read name num) pss).state_ ≠
      State.MAPPING := by
    intro hM
    rcases run_mapping_invariant ps fmi pss _ hM with ⟨_, hev, hlt⟩
    have hne : pss ≠ [] := by
      intro hnil
      rw [hnil] at h2
      simp at h2
      omega
    have hfin := hlt hne
    rw [hev, show (m0.new_read name num).event_i_ = 0 from rfl] at hfin
    omega
  cases hstate : (Mapper.run ps fmi (m0.new_read name num) pss).state_
  · exact absurd hstate hact
  · exact absurd hstate hnm
  · exact Or.inl rfl
  · exact Or.inr rfl

/-- Witness for C2: a fresh read under the sample configuration (budget
1) is terminal after one event. -/
theorem read_terminates_within_budget_witness :
    1 ≤ sample_params.max_events_proc_ ∧
    sample_params.max_events_proc_ ≤ [fun _ : Nat => (0 : ℚ)].length ∧
    ((Mapper.run sample_params sample_fmi ((Mapper.create 1).new_read "r" 0)
        [fun _ : Nat => (0 : ℚ)]).state_ = State.SUCCESS ∨
      (Mapper.run sample_params sample_fmi ((Mapper.create 1).new_read "r" 0)
        [fun _ : Nat => (0 : ℚ)]).state_ = State.FAILURE) :=
  ⟨by decide, by decide,
    read_terminates_within_budget sample_params sample_fmi (Mapper.create 1)
      "r" 0 [fun _ : Nat => (0 : ℚ)] (by decide) (by decide)⟩

end Uncalled
